import Mathlib

/-!
Shallow embedding of the grain-size specific-surface pipeline of
`estimate_specific_surface_from_gs_stats.ipynb`.

Modelling choices:
* numpy float arrays become `List ℝ`; IEEE floats become real numbers.
* `np.arange(-7.0, -1, 0.01)` is the 600-point arithmetic grid
  `fun i => -7 + i / 100` for `i < 600` (`gsSimLog`).
* `scipy.stats.norm.cdf` is the one external numerical capability the notebook
  uses; it enters the embedding as an explicit function argument
  `cdf : ℝ → ℝ → ℝ → ℝ` (`cdf x mean std`), exactly the interface the source
  calls.  Theorems that need properties of the normal CDF take them as
  hypotheses (strict monotonicity in `x`, continuity, nonnegativity), all of
  which hold for the normal CDF; `cdfSig` below is a concrete function with
  those properties used to evaluate the code at concrete inputs.
* the in-place numpy updates `freq_gs[1:] = cdf_gs[1:] - cdf_gs[:-1]`,
  `bins_gs[1:] = (bins_gs[1:] + bins_gs[:-1]) / 2` and
  `freq_gs[bins_gs < 2e-6] = 0` become the pure list operations `diffHead`,
  `midHead` and a `zipWith` masking (numpy evaluates the full right-hand side
  before assigning, so the pure rendering is exact).
-/

namespace GsSpec

noncomputable section

/-- Grid point i of `np.arange(-7.0, -1, 0.01)` (log10 metres). -/
def gridLog (i : ℕ) : ℝ := -7 + (i : ℝ) / 100

/-- The grain-size axis in log10 space: `np.arange(-7.0, -1, 0.01)`, 600 points. -/
def gsSimLog : List ℝ := (List.range 600).map gridLog

/-- `10.0 ** x` (numpy elementwise power with real exponent). -/
def pow10 (x : ℝ) : ℝ := (10 : ℝ) ^ x

/-- `gs_sim`: the evaluation axis: the log grid when `log_transform` is true,
else the grid exponentiated to linear metres (`10**np.arange(-7.0, -1, 0.01)`). -/
def gs_sim (log_transform : Bool) : List ℝ :=
  if log_transform then gsSimLog else gsSimLog.map pow10

/-- `cdf_gs = scipy.stats.norm.cdf(gs_sim, gs_mean, gs_std)` with the cdf passed
in explicitly. -/
def cdf_gs (cdf : ℝ → ℝ → ℝ → ℝ) (gs_mean gs_std : ℝ) (log_transform : Bool) :
    List ℝ :=
  (gs_sim log_transform).map (fun x => cdf x gs_mean gs_std)

/-- `freq_gs = cdf_gs.copy(); freq_gs[1:] = cdf_gs[1:] - cdf_gs[:-1]`:
keep the head, replace every later entry by its difference with the previous
entry of the original list. -/
def diffHead (l : List ℝ) : List ℝ :=
  match l with
  | [] => []
  | x :: xs => x :: List.zipWith (fun a b => a - b) xs (x :: xs)

/-- The per-bin mass list before clay truncation (the notebook's `freq_gs`
right after the finite differencing). -/
def freq_gs_raw (cdf : ℝ → ℝ → ℝ → ℝ) (gs_mean gs_std : ℝ)
    (log_transform : Bool) : List ℝ :=
  diffHead (cdf_gs cdf gs_mean gs_std log_transform)

/-- `bins_gs` before midpointing: `10**gs_sim` when `log_transform` is true,
else `gs_sim` itself (already linear). -/
def bins_gs_raw (log_transform : Bool) : List ℝ :=
  if log_transform then gsSimLog.map pow10 else gs_sim log_transform

/-- `bins_gs[1:] = (bins_gs[1:] + bins_gs[:-1]) / 2.0`: keep the head, replace
every later entry by the midpoint with the previous entry of the original
list. -/
def midHead (l : List ℝ) : List ℝ :=
  match l with
  | [] => []
  | x :: xs => x :: List.zipWith (fun a b => (a + b) / 2) xs (x :: xs)

/-- The midpointed bin axis (the notebook's `bins_gs` after `take middle of
bin`). -/
def bins_gs (log_transform : Bool) : List ℝ :=
  midHead (bins_gs_raw log_transform)

/-- `generate_gs_distributions(gs_mean, gs_std, rho_s, clay_cutoff,
log_transform)`: the source function, assembled from the stages above.  The
final step is `freq_gs[bins_gs < 2e-6] = 0` — note the source compares against
the literal `2e-6`, not against `clay_cutoff`, and never reads `rho_s`. -/
def generate_gs_distributions (cdf : ℝ → ℝ → ℝ → ℝ) (gs_mean gs_std : ℝ)
    (rho_s clay_cutoff : ℝ) (log_transform : Bool) : List ℝ × List ℝ :=
  (bins_gs log_transform,
    List.zipWith (fun b f => if b < 2e-6 then 0 else f)
      (bins_gs log_transform) (freq_gs_raw cdf gs_mean gs_std log_transform))

/-- `calculate_specific_surface_discrete(grain_size, freq, rho_s)`:
`6.0 / rho_s * (freq / grain_size).sum()`. -/
def calculate_specific_surface_discrete (grain_size freq : List ℝ)
    (rho_s : ℝ) : ℝ :=
  6.0 / rho_s * (List.zipWith (fun f g => f / g) freq grain_size).sum

/-- One row of the notebook's cell-12 loop: discretize then integrate. -/
def pipelineSS (cdf : ℝ → ℝ → ℝ → ℝ) (gs_mean gs_std rho_s clay_cutoff : ℝ)
    (log_transform : Bool) : ℝ :=
  (fun bf => calculate_specific_surface_discrete bf.1 bf.2 rho_s)
    (generate_gs_distributions cdf gs_mean gs_std rho_s clay_cutoff
      log_transform)

/-- A concrete cumulative-distribution-like function used to evaluate the code
at concrete inputs: `1/2 + z / (2 (1 + |z|))` precomposed with the
location-scale map `z = (x - mean) / std`.  Like the normal CDF it is strictly
increasing, continuous and valued in `[0, 1]`. -/
def ratSigmoid (z : ℝ) : ℝ := 1 / 2 + z / (2 * (1 + |z|))

/-- The location-scale family built on `ratSigmoid`, with the
`cdf(x, mean, std)` interface of `scipy.stats.norm.cdf`. -/
def cdfSig (x gs_mean gs_std : ℝ) : ℝ := ratSigmoid ((x - gs_mean) / gs_std)

/-- Closed form for the midpointed bin axis (both transform modes produce the
same bins). -/
def binVal : ℕ → ℝ
  | 0 => pow10 (gridLog 0)
  | i + 1 => (pow10 (gridLog (i + 1)) + pow10 (gridLog i)) / 2

/-- Closed form for the pre-truncation per-bin masses. -/
def simVal (log_transform : Bool) (i : ℕ) : ℝ :=
  if log_transform then gridLog i else pow10 (gridLog i)

/-- Closed form for `freq_gs_raw`. -/
def freqRawVal (cdf : ℝ → ℝ → ℝ → ℝ) (gs_mean gs_std : ℝ)
    (log_transform : Bool) : ℕ → ℝ
  | 0 => cdf (simVal log_transform 0) gs_mean gs_std
  | i + 1 => cdf (simVal log_transform (i + 1)) gs_mean gs_std -
      cdf (simVal log_transform i) gs_mean gs_std

/-! ### Orchestration over a dataset (cell-12 loop)

Rows carry the parsed mean and stdev; a missing/unparseable value is `none`
(the notebook sees pandas `NaN` there and the row's result propagates as
undefined).  Each row is processed independently and its result recorded. -/

/-- Process one row: both statistics present gives the computed specific
surface, otherwise the row's result is recorded as missing. -/
def processRow (cdf : ℝ → ℝ → ℝ → ℝ) (rho_s clay_cutoff : ℝ)
    (log_transform : Bool) (row : Option ℝ × Option ℝ) : Option ℝ :=
  match row with
  | (some m, some s) => some (pipelineSS cdf m s rho_s clay_cutoff log_transform)
  | _ => none

/-- The cell-12 loop over all rows of the dataset. -/
def processDataset (cdf : ℝ → ℝ → ℝ → ℝ) (rho_s clay_cutoff : ℝ)
    (log_transform : Bool) (rows : List (Option ℝ × Option ℝ)) :
    List (Option ℝ) :=
  rows.map (processRow cdf rho_s clay_cutoff log_transform)

/-! ### List-level helper lemmas -/

lemma sum_eq_range_getD (l : List ℝ) :
    l.sum = ∑ i in Finset.range l.length, l.getD i 0 := by
  induction l with
  | nil => simp
  | cons x xs ih =>
    simp only [List.sum_cons, List.length_cons]
    rw [Finset.sum_range_succ']
    simp only [List.getD_cons_succ, List.getD_cons_zero]
    rw [ih]
    ring

lemma zipWith_div_sum (freq sizes : List ℝ) (h : freq.length = sizes.length) :
    (List.zipWith (fun f g => f / g) freq sizes).sum =
      ∑ i in Finset.range freq.length, freq.getD i 0 / sizes.getD i 0 := by
  induction freq generalizing sizes with
  | nil => simp
  | cons f fs ih =>
    cases sizes with
    | nil => simp at h
    | cons s ss =>
      simp only [List.zipWith_cons_cons, List.sum_cons, List.length_cons]
      rw [Finset.sum_range_succ']
      simp only [List.getD_cons_succ, List.getD_cons_zero]
      rw [ih ss (by simpa using h)]
      ring

lemma gsSimLog_length : gsSimLog.length = 600 := by simp [gsSimLog]

lemma gsSimLog_getD (i : ℕ) (h : i < 600) : gsSimLog.getD i 0 = gridLog i := by
  have hl : i < gsSimLog.length := by rw [gsSimLog_length]; exact h
  rw [List.getD_eq_getElem gsSimLog 0 hl]
  simp [gsSimLog]

lemma map_getD (f : ℝ → ℝ) (l : List ℝ) (i : ℕ) (h : i < l.length) :
    (l.map f).getD i 0 = f (l.getD i 0) := by
  rw [List.getD_eq_getElem _ 0 (by simpa using h), List.getD_eq_getElem l 0 h,
    List.getElem_map]

lemma diffHead_length (l : List ℝ) : (diffHead l).length = l.length := by
  cases l with
  | nil => rfl
  | cons x xs => simp [diffHead, List.length_zipWith]

lemma diffHead_getD_zero (l : List ℝ) :
    (diffHead l).getD 0 0 = l.getD 0 0 := by
  cases l with
  | nil => rfl
  | cons x xs => rfl

lemma diffHead_getD_succ (l : List ℝ) (i : ℕ) (h : i + 1 < l.length) :
    (diffHead l).getD (i + 1) 0 = l.getD (i + 1) 0 - l.getD i 0 := by
  cases l with
  | nil => simp at h
  | cons x xs =>
    have hx : i < xs.length := by simpa using Nat.lt_of_succ_lt_succ h
    have hz : i < (List.zipWith (fun a b => a - b) xs (x :: xs)).length := by
      simp only [List.length_zipWith, List.length_cons]
      omega
    simp only [diffHead, List.getD_cons_succ]
    rw [List.getD_eq_getElem _ 0 hz, List.getElem_zipWith,
      List.getD_eq_getElem xs 0 hx,
      List.getD_eq_getElem (x :: xs) 0 (by simpa using hx.trans (Nat.lt_succ_self _))]

lemma midHead_length (l : List ℝ) : (midHead l).length = l.length := by
  cases l with
  | nil => rfl
  | cons x xs => simp [midHead, List.length_zipWith]

lemma midHead_getD_zero (l : List ℝ) :
    (midHead l).getD 0 0 = l.getD 0 0 := by
  cases l with
  | nil => rfl
  | cons x xs => rfl

lemma midHead_getD_succ (l : List ℝ) (i : ℕ) (h : i + 1 < l.length) :
    (midHead l).getD (i + 1) 0 = (l.getD (i + 1) 0 + l.getD i 0) / 2 := by
  cases l with
  | nil => simp at h
  | cons x xs =>
    have hx : i < xs.length := by simpa using Nat.lt_of_succ_lt_succ h
    have hz : i < (List.zipWith (fun a b => (a + b) / 2) xs (x :: xs)).length := by
      simp only [List.length_zipWith, List.length_cons]
      omega
    simp only [midHead, List.getD_cons_succ]
    rw [List.getD_eq_getElem _ 0 hz, List.getElem_zipWith,
      List.getD_eq_getElem xs 0 hx,
      List.getD_eq_getElem (x :: xs) 0 (by simpa using hx.trans (Nat.lt_succ_self _))]

lemma diffHead_sum_aux (xs : List ℝ) :
    ∀ x : ℝ, (x :: List.zipWith (fun a b => a - b) xs (x :: xs)).sum =
      (x :: xs).getD xs.length 0 := by
  induction xs with
  | nil => intro x; simp
  | cons y ys ih =>
    intro x
    have hih := ih y
    simp only [List.zipWith_cons_cons, List.sum_cons, List.length_cons,
      List.getD_cons_succ] at hih ⊢
    linarith

/-- The finite differences of a cumulative list telescope back to its last
entry: total retained mass is the CDF at the top grid point. -/
lemma diffHead_sum (l : List ℝ) :
    (diffHead l).sum = l.getD (l.length - 1) 0 := by
  cases l with
  | nil => rfl
  | cons x xs =>
    simpa [diffHead] using diffHead_sum_aux xs x

/-! ### The stages in closed form -/

lemma gs_sim_length (lt : Bool) : (gs_sim lt).length = 600 := by
  cases lt <;> simp [gs_sim, gsSimLog_length]

lemma gsSimLog_getElem (i : ℕ) (h : i < gsSimLog.length) :
    gsSimLog[i] = gridLog i := by simp [gsSimLog]

lemma gs_sim_getD (lt : Bool) (i : ℕ) (h : i < 600) :
    (gs_sim lt).getD i 0 = simVal lt i := by
  cases lt <;>
    simp [gs_sim, simVal, map_getD, gsSimLog_length, gsSimLog_getElem, h]

lemma cdf_gs_length (cdf : ℝ → ℝ → ℝ → ℝ) (m s : ℝ) (lt : Bool) :
    (cdf_gs cdf m s lt).length = 600 := by
  simp [cdf_gs, gs_sim_length]

lemma cdf_gs_getD (cdf : ℝ → ℝ → ℝ → ℝ) (m s : ℝ) (lt : Bool) (i : ℕ)
    (h : i < 600) :
    (cdf_gs cdf m s lt).getD i 0 = cdf (simVal lt i) m s := by
  rw [cdf_gs, map_getD _ _ i (by rw [gs_sim_length]; exact h), gs_sim_getD lt i h]

lemma freq_gs_raw_length (cdf : ℝ → ℝ → ℝ → ℝ) (m s : ℝ) (lt : Bool) :
    (freq_gs_raw cdf m s lt).length = 600 := by
  simp [freq_gs_raw, diffHead_length, cdf_gs_length]

lemma freq_gs_raw_getD (cdf : ℝ → ℝ → ℝ → ℝ) (m s : ℝ) (lt : Bool) (i : ℕ)
    (h : i < 600) :
    (freq_gs_raw cdf m s lt).getD i 0 = freqRawVal cdf m s lt i := by
  cases i with
  | zero =>
    rw [freq_gs_raw, diffHead_getD_zero, cdf_gs_getD cdf m s lt 0 (by norm_num)]
    rfl
  | succ j =>
    rw [freq_gs_raw,
      diffHead_getD_succ _ j (by rw [cdf_gs_length]; exact h),
      cdf_gs_getD cdf m s lt (j + 1) h,
      cdf_gs_getD cdf m s lt j (Nat.lt_of_succ_lt h)]
    rfl

lemma bins_gs_raw_eq (lt : Bool) : bins_gs_raw lt = gsSimLog.map pow10 := by
  cases lt <;> simp [bins_gs_raw, gs_sim]

lemma bins_gs_length (lt : Bool) : (bins_gs lt).length = 600 := by
  simp [bins_gs, midHead_length, bins_gs_raw_eq, gsSimLog_length]

lemma bins_gs_raw_getD (lt : Bool) (i : ℕ) (h : i < 600) :
    (bins_gs_raw lt).getD i 0 = pow10 (gridLog i) := by
  rw [bins_gs_raw_eq, map_getD _ _ i (by rw [gsSimLog_length]; exact h),
    gsSimLog_getD i h]

lemma bins_gs_getD (lt : Bool) (i : ℕ) (h : i < 600) :
    (bins_gs lt).getD i 0 = binVal i := by
  cases i with
  | zero =>
    rw [bins_gs, midHead_getD_zero, bins_gs_raw_getD lt 0 (by norm_num)]
    rfl
  | succ j =>
    rw [bins_gs,
      midHead_getD_succ _ j
        (by rw [bins_gs_raw_eq]; simpa [gsSimLog_length] using h),
      bins_gs_raw_getD lt (j + 1) h,
      bins_gs_raw_getD lt j (Nat.lt_of_succ_lt h)]
    rfl

lemma generate_fst (cdf : ℝ → ℝ → ℝ → ℝ) (m s r c : ℝ) (lt : Bool) :
    (generate_gs_distributions cdf m s r c lt).1 = bins_gs lt := rfl

lemma generate_snd_length (cdf : ℝ → ℝ → ℝ → ℝ) (m s r c : ℝ) (lt : Bool) :
    (generate_gs_distributions cdf m s r c lt).2.length = 600 := by
  simp [generate_gs_distributions, List.length_zipWith, bins_gs_length,
    freq_gs_raw_length]

lemma bins_gs_getElem (lt : Bool) (i : ℕ) (h : i < (bins_gs lt).length) :
    (bins_gs lt)[i] = binVal i := by
  rw [← List.getD_eq_getElem (bins_gs lt) 0 h]
  exact bins_gs_getD lt i (by rw [← bins_gs_length lt]; exact h)

lemma freq_gs_raw_getElem (cdf : ℝ → ℝ → ℝ → ℝ) (m s : ℝ) (lt : Bool) (i : ℕ)
    (h : i < (freq_gs_raw cdf m s lt).length) :
    (freq_gs_raw cdf m s lt)[i] = freqRawVal cdf m s lt i := by
  rw [← List.getD_eq_getElem (freq_gs_raw cdf m s lt) 0 h]
  exact freq_gs_raw_getD cdf m s lt i (by rw [← freq_gs_raw_length cdf m s lt]; exact h)

lemma generate_snd_getD (cdf : ℝ → ℝ → ℝ → ℝ) (m s r c : ℝ) (lt : Bool)
    (i : ℕ) (h : i < 600) :
    (generate_gs_distributions cdf m s r c lt).2.getD i 0 =
      if binVal i < 2e-6 then 0 else freqRawVal cdf m s lt i := by
  have hz : i < (List.zipWith (fun b f => if b < 2e-6 then (0 : ℝ) else f)
      (bins_gs lt) (freq_gs_raw cdf m s lt)).length := by
    simp only [List.length_zipWith, bins_gs_length, freq_gs_raw_length]
    simpa using h
  rw [generate_gs_distributions, List.getD_eq_getElem _ 0 hz,
    List.getElem_zipWith]
  rw [bins_gs_getElem lt i, freq_gs_raw_getElem cdf m s lt i]

/-! ### C3, C7, C8: the surface integrator -/

/-- C3: for equal-length size and mass-fraction sequences (with every
nonzero-mass bin's size positive) and positive solid density, the surface
integrator returns exactly `6 / rho_s` times the sum of
`massFraction i / size i`. -/
theorem C3_integrator_formula (sizes freq : List ℝ) (rho_s : ℝ)
    (hlen : sizes.length = freq.length)
    (hsz : ∀ i, i < sizes.length → freq.getD i 0 ≠ 0 → 0 < sizes.getD i 0)
    (hrho : 0 < rho_s) :
    calculate_specific_surface_discrete sizes freq rho_s =
      6 / rho_s * ∑ i in Finset.range freq.length,
        freq.getD i 0 / sizes.getD i 0 := by
  unfold calculate_specific_surface_discrete
  rw [zipWith_div_sum freq sizes hlen.symm]
  norm_num

/-- Witness for C3 at sizes `[1, 2]`, fractions `[3, 4]`, density `5`. -/
theorem C3_integrator_formula_witness :
    calculate_specific_surface_discrete [(1 : ℝ), 2] [(3 : ℝ), 4] 5 =
      6 / 5 * ∑ i in Finset.range ([(3 : ℝ), 4].length),
        [(3 : ℝ), 4].getD i 0 / [(1 : ℝ), 2].getD i 0 :=
  C3_integrator_formula [(1 : ℝ), 2] [(3 : ℝ), 4] 5 (by simp)
    (by intro i hi _; simp only [List.length_cons, List.length_nil] at hi
        interval_cases i <;> norm_num)
    (by norm_num)

/-- C7: if every mass fraction is zero (all sizes positive, positive density),
the surface integrator returns exactly 0. -/
theorem C7_all_zero_mass (sizes freq : List ℝ) (rho_s : ℝ)
    (hfreq : ∀ x ∈ freq, x = (0 : ℝ))
    (hsz : ∀ x ∈ sizes, (0 : ℝ) < x)
    (hrho : 0 < rho_s) :
    calculate_specific_surface_discrete sizes freq rho_s = 0 := by
  unfold calculate_specific_surface_discrete
  have hz : (List.zipWith (fun f g => f / g) freq sizes).sum = 0 := by
    induction freq generalizing sizes with
    | nil => simp
    | cons f fs ih =>
      cases sizes with
      | nil => simp
      | cons s ss =>
        simp only [List.zipWith_cons_cons, List.sum_cons]
        have hf : f = 0 := hfreq f (by simp)
        rw [hf, zero_div, zero_add]
        exact ih ss (fun x hx => hfreq x (List.mem_cons_of_mem f hx))
          (fun x hx => hsz x (List.mem_cons_of_mem s hx))
  rw [hz, mul_zero]

/-- Witness for C7 at sizes `[1]`, fractions `[0]`, density `2`. -/
theorem C7_all_zero_mass_witness :
    calculate_specific_surface_discrete [(1 : ℝ)] [(0 : ℝ)] 2 = 0 :=
  C7_all_zero_mass [(1 : ℝ)] [(0 : ℝ)] 2 (by intro x hx; simpa using hx)
    (by intro x hx; simp at hx; simp [hx]) (by norm_num)

/-- C8: doubling the solid density exactly halves the integrator's result. -/
theorem C8_density_halves (sizes freq : List ℝ) (rho_s : ℝ) (hrho : 0 < rho_s) :
    calculate_specific_surface_discrete sizes freq (2 * rho_s) =
      calculate_specific_surface_discrete sizes freq rho_s / 2 := by
  unfold calculate_specific_surface_discrete
  have h6 : (6.0 : ℝ) / (2 * rho_s) = 6.0 / rho_s / 2 := by
    rw [div_div, mul_comm]
  rw [h6]
  ring

/-- Witness for C8 at sizes `[1, 2]`, fractions `[3, 4]`, density `5`. -/
theorem C8_density_halves_witness :
    calculate_specific_surface_discrete [(1 : ℝ), 2] [(3 : ℝ), 4] (2 * 5) =
      calculate_specific_surface_discrete [(1 : ℝ), 2] [(3 : ℝ), 4] 5 / 2 :=
  C8_density_halves [(1 : ℝ), 2] [(3 : ℝ), 4] 5 (by norm_num)

/-! ### C4: finite differencing of the CDF -/

/-- C4: the pre-truncation masses are finite differences of the cdf on the
600-point grid — evaluated on the log10 grid when the transform flag is set,
on the exponentiated (linear) grid otherwise; bin 0 carries the raw CDF at the
first grid point; the total retained mass telescopes to the CDF at the last
grid point, so mass above the axis is dropped with no renormalization. -/
theorem C4_cdf_finite_differences (cdf : ℝ → ℝ → ℝ → ℝ) (gs_mean gs_std : ℝ)
    (lt : Bool) (i : ℕ) (h1 : 1 ≤ i) (h2 : i < 600) :
    (freq_gs_raw cdf gs_mean gs_std lt).length = 600 ∧
    (freq_gs_raw cdf gs_mean gs_std lt).getD 0 0 =
      cdf (if lt then gridLog 0 else pow10 (gridLog 0)) gs_mean gs_std ∧
    (freq_gs_raw cdf gs_mean gs_std lt).getD i 0 =
      cdf (if lt then gridLog i else pow10 (gridLog i)) gs_mean gs_std -
        cdf (if lt then gridLog (i - 1) else pow10 (gridLog (i - 1)))
          gs_mean gs_std ∧
    (freq_gs_raw cdf gs_mean gs_std lt).sum =
      cdf (if lt then gridLog 599 else pow10 (gridLog 599)) gs_mean gs_std := by
  obtain ⟨j, rfl⟩ : ∃ j, i = j + 1 := ⟨i - 1, (Nat.succ_pred_eq_of_pos h1).symm⟩
  refine ⟨freq_gs_raw_length cdf gs_mean gs_std lt, ?_, ?_, ?_⟩
  · rw [freq_gs_raw_getD cdf gs_mean gs_std lt 0 (by norm_num)]
    simp [freqRawVal, simVal]
  · rw [freq_gs_raw_getD cdf gs_mean gs_std lt (j + 1) h2]
    simp [freqRawVal, simVal]
  · rw [freq_gs_raw, diffHead_sum,
      cdf_gs_length cdf gs_mean gs_std lt]
    rw [show (600 : ℕ) - 1 = 599 from rfl,
      cdf_gs_getD cdf gs_mean gs_std lt 599 (by norm_num)]
    simp [simVal]

/-- Witness for C4 at the sigmoid cdf, mean 0, stdev 1, log mode, i = 1. -/
theorem C4_cdf_finite_differences_witness :
    (freq_gs_raw cdfSig 0 1 true).length = 600 ∧
    (freq_gs_raw cdfSig 0 1 true).getD 0 0 =
      cdfSig (if true then gridLog 0 else pow10 (gridLog 0)) 0 1 ∧
    (freq_gs_raw cdfSig 0 1 true).getD 1 0 =
      cdfSig (if true then gridLog 1 else pow10 (gridLog 1)) 0 1 -
        cdfSig (if true then gridLog (1 - 1) else pow10 (gridLog (1 - 1))) 0 1 ∧
    (freq_gs_raw cdfSig 0 1 true).sum =
      cdfSig (if true then gridLog 599 else pow10 (gridLog 599)) 0 1 :=
  C4_cdf_finite_differences cdfSig 0 1 true 1 (by norm_num) (by norm_num)

/-! ### C5: representative bin sizes -/

/-- C5: in both transform modes, bin 0 reports the raw linear grid value
`10 ^ (-7)` and every later bin i reports the arithmetic midpoint (in linear
metres) of grid values i and i - 1. -/
theorem C5_bin_midpoints (lt : Bool) (i : ℕ) (h1 : 1 ≤ i) (h2 : i < 600) :
    (bins_gs lt).length = 600 ∧
    (bins_gs lt).getD 0 0 = pow10 (-7) ∧
    (bins_gs lt).getD i 0 =
      (pow10 (gridLog i) + pow10 (gridLog (i - 1))) / 2 := by
  obtain ⟨j, rfl⟩ : ∃ j, i = j + 1 := ⟨i - 1, (Nat.succ_pred_eq_of_pos h1).symm⟩
  refine ⟨bins_gs_length lt, ?_, ?_⟩
  · rw [bins_gs_getD lt 0 (by norm_num)]
    show pow10 (gridLog 0) = pow10 (-7)
    norm_num [gridLog]
  · rw [bins_gs_getD lt (j + 1) h2]
    simp [binVal]

/-- Witness for C5 in log mode at i = 1. -/
theorem C5_bin_midpoints_witness :
    (bins_gs true).length = 600 ∧
    (bins_gs true).getD 0 0 = pow10 (-7) ∧
    (bins_gs true).getD 1 0 =
      (pow10 (gridLog 1) + pow10 (gridLog (1 - 1))) / 2 :=
  C5_bin_midpoints true 1 (by norm_num) (by norm_num)

/-! ### C10: the cutoff and density arguments are dead -/

/-- C10: the discretizer's output is independent of its `rho_s` and
`clay_cutoff` arguments, and the clay threshold actually applied to every bin
is the hard-coded constant `2e-6` metres. -/
theorem C10_arguments_ignored (cdf : ℝ → ℝ → ℝ → ℝ) (gs_mean gs_std : ℝ)
    (lt : Bool) (r1 c1 r2 c2 : ℝ) (i : ℕ) (h : i < 600) :
    generate_gs_distributions cdf gs_mean gs_std r1 c1 lt =
      generate_gs_distributions cdf gs_mean gs_std r2 c2 lt ∧
    (generate_gs_distributions cdf gs_mean gs_std r1 c1 lt).2.getD i 0 =
      (if binVal i < 2e-6 then 0 else freqRawVal cdf gs_mean gs_std lt i) :=
  ⟨rfl, generate_snd_getD cdf gs_mean gs_std r1 c1 lt i h⟩

/-- Witness for C10 at the sigmoid cdf with two different density/cutoff
pairs. -/
theorem C10_arguments_ignored_witness :
    generate_gs_distributions cdfSig 0 1 2650 4e-6 true =
      generate_gs_distributions cdfSig 0 1 1000 9e-6 true ∧
    (generate_gs_distributions cdfSig 0 1 2650 4e-6 true).2.getD 0 0 =
      (if binVal 0 < 2e-6 then 0 else freqRawVal cdfSig 0 1 true 0) :=
  C10_arguments_ignored cdfSig 0 1 true 2650 4e-6 1000 9e-6 0 (by norm_num)

/-! ### Facts about `pow10`, the grid and the bins -/

lemma pow10_pos (x : ℝ) : 0 < pow10 x := Real.rpow_pos_of_pos (by norm_num) x

lemma pow10_lt_pow10 (x y : ℝ) (h : x < y) : pow10 x < pow10 y :=
  (Real.rpow_lt_rpow_left_iff (by norm_num)).mpr h

lemma pow10_natpow (r : ℝ) (n : ℕ) : pow10 r ^ n = pow10 (r * n) := by
  unfold pow10
  rw [Real.rpow_mul (by norm_num), Real.rpow_natCast]

lemma pow10_neg_nat (k : ℕ) : pow10 (-(k : ℝ)) = ((10 : ℝ) ^ k)⁻¹ := by
  unfold pow10
  rw [Real.rpow_neg (by norm_num), Real.rpow_natCast]

lemma le_pow10_of_pow (q r : ℝ) (n : ℕ) (hn : n ≠ 0) (hq : 0 ≤ q)
    (h : q ^ n ≤ pow10 (r * n)) : q ≤ pow10 r := by
  rw [← pow10_natpow r n] at h
  exact le_of_pow_le_pow_left₀ hn (pow10_pos r).le h

lemma pow10_le_of_pow (q r : ℝ) (n : ℕ) (hn : n ≠ 0) (hq : 0 ≤ q)
    (h : pow10 (r * n) ≤ q ^ n) : pow10 r ≤ q := by
  rw [← pow10_natpow r n] at h
  exact le_of_pow_le_pow_left₀ hn hq h

lemma gridLog_lt_succ (i : ℕ) : gridLog i < gridLog (i + 1) := by
  unfold gridLog
  push_cast
  linarith

lemma gridLog_neg (i : ℕ) (h : i < 600) : gridLog i < 0 := by
  unfold gridLog
  have : (i : ℝ) < 600 := by exact_mod_cast h
  linarith

lemma binVal_succ (i : ℕ) :
    binVal (i + 1) = (pow10 (gridLog (i + 1)) + pow10 (gridLog i)) / 2 := rfl

lemma binVal_pos (i : ℕ) : 0 < binVal i := by
  cases i with
  | zero => exact pow10_pos _
  | succ j =>
    have h1 := pow10_pos (gridLog (j + 1))
    have h2 := pow10_pos (gridLog j)
    rw [binVal_succ]
    linarith

lemma binVal_succ_ge (i : ℕ) : pow10 (gridLog i) ≤ binVal (i + 1) := by
  have h := (pow10_lt_pow10 _ _ (gridLog_lt_succ i)).le
  rw [binVal_succ]
  linarith

lemma binVal_succ_le (i : ℕ) : binVal (i + 1) ≤ pow10 (gridLog (i + 1)) := by
  have h := (pow10_lt_pow10 _ _ (gridLog_lt_succ i)).le
  rw [binVal_succ]
  linarith

lemma two_e6_le_pow10_g144 : (2e-6 : ℝ) ≤ pow10 (gridLog 144) := by
  have hg : gridLog 144 = -139 / 25 := by norm_num [gridLog]
  rw [hg]
  apply le_pow10_of_pow _ _ 25 (by norm_num) (by norm_num)
  rw [show (-139 / 25 : ℝ) * (25 : ℕ) = -((139 : ℕ) : ℝ) by push_cast; ring,
    pow10_neg_nat]
  rw [le_inv_comm₀ (by positivity) (by positivity)]
  norm_num

lemma pow10_g145_le : pow10 (gridLog 145) ≤ (3e-6 : ℝ) := by
  have hg : gridLog 145 = -111 / 20 := by norm_num [gridLog]
  rw [hg]
  apply pow10_le_of_pow _ _ 20 (by norm_num) (by norm_num)
  rw [show (-111 / 20 : ℝ) * (20 : ℕ) = -((111 : ℕ) : ℝ) by push_cast; ring,
    pow10_neg_nat]
  rw [inv_le_comm₀ (by positivity) (by positivity)]
  norm_num

lemma binVal145_ge : (2e-6 : ℝ) ≤ binVal 145 := by
  have h := binVal_succ_ge 144
  have h2 := two_e6_le_pow10_g144
  calc (2e-6 : ℝ) ≤ pow10 (gridLog 144) := h2
    _ ≤ binVal (144 + 1) := h
    _ = binVal 145 := by norm_num

lemma binVal145_lt : binVal 145 < (4e-6 : ℝ) := by
  have h : binVal 145 ≤ pow10 (gridLog 145) := by
    have := binVal_succ_le 144
    simpa using this
  have h2 := pow10_g145_le
  have : binVal 145 ≤ (3e-6 : ℝ) := h.trans h2
  linarith [show (3e-6 : ℝ) < 4e-6 by norm_num]

/-! ### Facts about the sigmoid cdf -/

lemma ratSigmoid_nonneg (z : ℝ) : 0 ≤ ratSigmoid z := by
  unfold ratSigmoid
  have h3 : (-1 : ℝ) / 2 ≤ z / (2 * (1 + |z|)) := by
    rw [div_le_div_iff₀ (by norm_num) (by positivity)]
    have := neg_abs_le z
    nlinarith [abs_nonneg z]
  linarith

lemma ratSigmoid_strictMono : StrictMono ratSigmoid := by
  intro z w hzw
  unfold ratSigmoid
  have key : z * (1 + |w|) < w * (1 + |z|) := by
    rcases abs_cases z with ⟨hz1, hz2⟩ | ⟨hz1, hz2⟩ <;>
      rcases abs_cases w with ⟨hw1, hw2⟩ | ⟨hw1, hw2⟩ <;>
        rw [hz1, hw1] <;> nlinarith
  have hlt : z / (2 * (1 + |z|)) < w / (2 * (1 + |w|)) := by
    rw [div_lt_div_iff₀ (by positivity) (by positivity)]
    nlinarith
  linarith

lemma cdfSig_mono (m s : ℝ) (hs : 0 < s) : Monotone (fun x => cdfSig x m s) := by
  intro a b hab
  unfold cdfSig
  exact (ratSigmoid_strictMono.monotone)
    ((div_le_div_iff_of_pos_right hs).mpr (by linarith))

lemma freqRawVal_sig_nonneg (m s : ℝ) (hs : 0 < s) (i : ℕ) :
    0 ≤ freqRawVal cdfSig m s true i := by
  cases i with
  | zero => exact ratSigmoid_nonneg _
  | succ j =>
    have h : cdfSig (simVal true j) m s ≤ cdfSig (simVal true (j + 1)) m s := by
      apply cdfSig_mono m s hs
      simp only [simVal, if_pos]
      exact (gridLog_lt_succ j).le
    show 0 ≤ cdfSig (simVal true (j + 1)) m s - cdfSig (simVal true j) m s
    linarith

lemma freq145_val : freqRawVal cdfSig (-5.555) 1 true 145 = 1 / 201 := by
  rw [show (145 : ℕ) = 144 + 1 by norm_num]
  show cdfSig (simVal true 145) (-5.555) 1 - cdfSig (simVal true 144) (-5.555) 1
      = 1 / 201
  simp only [simVal, if_pos]
  unfold cdfSig
  rw [show (gridLog 145 - -5.555) / 1 = 1 / 200 by norm_num [gridLog],
    show (gridLog 144 - -5.555) / 1 = -(1 / 200) by norm_num [gridLog]]
  unfold ratSigmoid
  rw [abs_of_pos (by norm_num), abs_of_neg (by norm_num)]
  norm_num

/-! ### The pipeline as an explicit finite sum -/

lemma pipelineSS_eq_sum (cdf : ℝ → ℝ → ℝ → ℝ) (m s r c : ℝ) (lt : Bool) :
    pipelineSS cdf m s r c lt =
      6 / r * ∑ i in Finset.range 600,
        (if binVal i < 2e-6 then 0 else freqRawVal cdf m s lt i) / binVal i := by
  show calculate_specific_surface_discrete
      (generate_gs_distributions cdf m s r c lt).1
      (generate_gs_distributions cdf m s r c lt).2 r = _
  unfold calculate_specific_surface_discrete
  rw [zipWith_div_sum _ _
    (by rw [generate_snd_length, generate_fst, bins_gs_length])]
  rw [generate_snd_length]
  have hsum : ∑ i in Finset.range 600,
      (generate_gs_distributions cdf m s r c lt).2.getD i 0 /
        (generate_gs_distributions cdf m s r c lt).1.getD i 0 =
      ∑ i in Finset.range 600,
        (if binVal i < 2e-6 then 0 else freqRawVal cdf m s lt i) / binVal i := by
    apply Finset.sum_congr rfl
    intro i hi
    rw [Finset.mem_range] at hi
    rw [generate_snd_getD cdf m s r c lt i hi, generate_fst,
      bins_gs_getD lt i hi]
  rw [hsum]
  norm_num

/-! ### C1 and C2: the cutoff argument is not honoured by the code -/

/-- C1 (code evaluated at a failing input): with the notebook's own
configuration `clay_cutoff = 4e-6`, bin 145's representative grain size lies
in `[2e-6, 4e-6)` — strictly below the cutoff argument — yet the returned mass
fraction of that bin is nonzero, because the source masks with the literal
`2e-6` instead of `clay_cutoff`. -/
theorem C1_cutoff_not_applied :
    2e-6 ≤ (generate_gs_distributions cdfSig (-5.555) 1 2650 4e-6 true).1.getD 145 0 ∧
    (generate_gs_distributions cdfSig (-5.555) 1 2650 4e-6 true).1.getD 145 0 < 4e-6 ∧
    (generate_gs_distributions cdfSig (-5.555) 1 2650 4e-6 true).2.getD 145 0 ≠ 0 := by
  rw [generate_fst, bins_gs_getD true 145 (by norm_num),
    generate_snd_getD cdfSig (-5.555) 1 2650 4e-6 true 145 (by norm_num)]
  refine ⟨binVal145_ge, binVal145_lt, ?_⟩
  rw [if_neg (not_lt.mpr binVal145_ge), freq145_val]
  norm_num

/-- C2 (code evaluated at a failing input): with cutoff `0.2 m > 0.1 m` the
pipeline result is strictly positive, not 0, because the cutoff argument is
ignored by the discretizer. -/
theorem C2_large_cutoff_not_zero :
    0 < pipelineSS cdfSig (-5.555) 1 2650 (1 / 5) true := by
  rw [pipelineSS_eq_sum]
  apply mul_pos (by norm_num)
  apply Finset.sum_pos'
  · intro i hi
    apply div_nonneg _ (binVal_pos i).le
    split
    · exact le_refl 0
    · exact freqRawVal_sig_nonneg (-5.555) 1 (by norm_num) i
  · refine ⟨145, Finset.mem_range.mpr (by norm_num), ?_⟩
    rw [if_neg (not_lt.mpr binVal145_ge), freq145_val]
    exact div_pos (by norm_num) (binVal_pos 145)

/-! ### C9: per-row orchestration -/

/-- C9: the dataset loop processes rows independently: the output has one
entry per row, entry i is a function of row i alone, a valid row receives its
computed specific surface, and a row with a missing statistic is recorded as
missing without affecting any other row. -/
theorem C9_rows_independent (cdf : ℝ → ℝ → ℝ → ℝ) (r c : ℝ) (lt : Bool)
    (rows : List (Option ℝ × Option ℝ)) (i : ℕ) (h : i < rows.length) :
    (processDataset cdf r c lt rows).length = rows.length ∧
    (processDataset cdf r c lt rows).getD i none =
      processRow cdf r c lt (rows.getD i (none, none)) ∧
    (∀ m s : ℝ, rows.getD i (none, none) = (some m, some s) →
      (processDataset cdf r c lt rows).getD i none =
        some (pipelineSS cdf m s r c lt)) ∧
    ((rows.getD i (none, none)).1 = none →
      (processDataset cdf r c lt rows).getD i none = none) := by
  have hl : i < (processDataset cdf r c lt rows).length := by
    simpa [processDataset] using h
  have hmap : (processDataset cdf r c lt rows).getD i none =
      processRow cdf r c lt (rows.getD i (none, none)) := by
    rw [List.getD_eq_getElem _ _ hl, List.getD_eq_getElem _ _ h]
    simp [processDataset]
  refine ⟨by simp [processDataset], hmap, ?_, ?_⟩
  · intro m s heq
    rw [hmap, heq]
    rfl
  · intro h1
    rw [hmap]
    rcases hrow : rows.getD i (none, none) with ⟨o1, o2⟩
    rw [hrow] at h1
    simp only at h1
    subst h1
    cases o2 <;> rfl

/-- Witness for C9: a dataset whose first row misses its mean and whose second
row is valid. -/
theorem C9_rows_independent_witness :
    (processDataset cdfSig 2650 4e-6 false
        [((none : Option ℝ), some 1), (some 2, some 3)]).length =
      [((none : Option ℝ), some 1), (some 2, some 3)].length ∧
    (processDataset cdfSig 2650 4e-6 false
        [((none : Option ℝ), some 1), (some 2, some 3)]).getD 0 none =
      processRow cdfSig 2650 4e-6 false
        ([((none : Option ℝ), some 1), (some 2, some 3)].getD 0 (none, none)) ∧
    (∀ m s : ℝ,
      [((none : Option ℝ), some 1), (some 2, some 3)].getD 0 (none, none) =
          (some m, some s) →
      (processDataset cdfSig 2650 4e-6 false
          [((none : Option ℝ), some 1), (some 2, some 3)]).getD 0 none =
        some (pipelineSS cdfSig m s 2650 4e-6 false)) ∧
    (([((none : Option ℝ), some 1), (some 2, some 3)].getD 0 (none, none)).1 =
        none →
      (processDataset cdfSig 2650 4e-6 false
          [((none : Option ℝ), some 1), (some 2, some 3)]).getD 0 none = none) :=
  C9_rows_independent cdfSig 2650 4e-6 false
    [((none : Option ℝ), some 1), (some 2, some 3)] 0 (by norm_num)

/-! ### C6: the two transform modes are different algorithms

The strategy: fix `mean = 0` and let `stdev = s → 0⁺`.  In log mode every grid
point sits strictly below the mean, so every CDF value converges to the CDF's
limit at `-∞` and all finite differences vanish: the log-mode result tends
to 0.  In linear mode the parameters tend to `(10^0, 10^0) = (1, 1)`, a fixed
distribution whose result is strictly positive.  If the two modes agreed at
every `(mean, stdev)` the two limits would coincide. -/

lemma pow10_zero : pow10 0 = 1 := Real.rpow_zero 10

lemma simVal_true (i : ℕ) : simVal true i = gridLog i := rfl

lemma simVal_false (i : ℕ) : simVal false i = pow10 (gridLog i) := rfl

lemma pow10_continuous : Continuous pow10 := by
  have h : pow10 = fun x => Real.exp (Real.log 10 * x) := by
    funext x
    exact Real.rpow_def_of_pos (by norm_num) x
  rw [h]
  exact Real.continuous_exp.comp (continuous_const.mul continuous_id)

lemma binVal0_lt : binVal 0 < (2e-6 : ℝ) := by
  show pow10 (gridLog 0) < 2e-6
  rw [show gridLog 0 = -((7 : ℕ) : ℝ) by norm_num [gridLog], pow10_neg_nat]
  norm_num

lemma binVal599_ge : (2e-6 : ℝ) ≤ binVal 599 := by
  have h1 : pow10 (-((2 : ℕ) : ℝ)) ≤ pow10 (gridLog 598) :=
    (pow10_lt_pow10 _ _ (by norm_num [gridLog])).le
  rw [pow10_neg_nat] at h1
  have h2 := binVal_succ_ge 598
  have h3 : ((10 : ℝ) ^ (2 : ℕ))⁻¹ = 1 / 100 := by norm_num
  rw [h3] at h1
  calc (2e-6 : ℝ) ≤ 1 / 100 := by norm_num
    _ ≤ pow10 (gridLog 598) := h1
    _ ≤ binVal (598 + 1) := h2
    _ = binVal 599 := by norm_num

lemma tendsto_const_div_atBot (c : ℝ) (hc : c < 0) :
    Filter.Tendsto (fun s : ℝ => c / s) (nhdsWithin 0 (Set.Ioi 0))
      Filter.atBot := by
  have h1 : Filter.Tendsto (fun s : ℝ => s⁻¹) (nhdsWithin 0 (Set.Ioi 0))
      Filter.atTop := tendsto_inv_zero_atTop
  have h2 := h1.const_mul_atTop_of_neg hc
  simpa [div_eq_mul_inv] using h2

/-- In log mode with mean 0, the result vanishes as the stdev shrinks to 0:
every grid point is below the mean, so every cdf value converges to the cdf's
limit at `-∞` and the differences cancel (bin 0, the only bin carrying a raw
cdf value, is clay-zeroed). -/
lemma tendsto_true_mode_zero (F : ℝ → ℝ) (L : ℝ)
    (hFbot : Filter.Tendsto F Filter.atBot (nhds L)) :
    Filter.Tendsto
      (fun s => pipelineSS (fun x m sg => F ((x - m) / sg)) 0 s 2650 4e-6 true)
      (nhdsWithin 0 (Set.Ioi 0)) (nhds 0) := by
  have heq : (fun s =>
      pipelineSS (fun x m sg => F ((x - m) / sg)) 0 s 2650 4e-6 true) =
      fun s => 6 / 2650 * ∑ i in Finset.range 600,
        (if binVal i < 2e-6 then 0
          else freqRawVal (fun x m sg => F ((x - m) / sg)) 0 s true i) /
          binVal i := by
    funext s
    exact pipelineSS_eq_sum (fun x m sg => F ((x - m) / sg)) 0 s 2650 4e-6 true
  rw [heq]
  have hgrid : ∀ k : ℕ, k < 600 →
      Filter.Tendsto (fun s : ℝ => F ((gridLog k - 0) / s))
        (nhdsWithin 0 (Set.Ioi 0)) (nhds L) := by
    intro k hk
    exact hFbot.comp (tendsto_const_div_atBot _ (by
      rw [sub_zero]
      exact gridLog_neg k hk))
  have hterm : ∀ i ∈ Finset.range 600,
      Filter.Tendsto (fun s =>
        (if binVal i < 2e-6 then 0
          else freqRawVal (fun x m sg => F ((x - m) / sg)) 0 s true i) /
          binVal i)
        (nhdsWithin 0 (Set.Ioi 0)) (nhds 0) := by
    intro i hi
    rw [Finset.mem_range] at hi
    by_cases hbi : binVal i < 2e-6
    · simp only [if_pos hbi, zero_div]
      exact tendsto_const_nhds
    · simp only [if_neg hbi]
      cases i with
      | zero => exact absurd binVal0_lt (by simpa using hbi)
      | succ j =>
        have hdiff : Filter.Tendsto (fun s =>
            freqRawVal (fun x m sg => F ((x - m) / sg)) 0 s true (j + 1))
            (nhdsWithin 0 (Set.Ioi 0)) (nhds (L - L)) := by
          simp only [freqRawVal, simVal, if_pos]
          exact (hgrid (j + 1) hi).sub (hgrid j (Nat.lt_of_succ_lt hi))
        rw [sub_self] at hdiff
        have := hdiff.div_const (binVal (j + 1))
        simpa using this
  have hsum := tendsto_finset_sum (Finset.range 600) hterm
  have hmul := hsum.const_mul (6 / 2650 : ℝ)
  simpa using hmul

/-- In linear mode, as `s → 0⁺` the parameters `(10^0, 10^s)` converge to
`(1, 1)` and the result converges to the result at `(1, 1)`. -/
lemma tendsto_false_mode (F : ℝ → ℝ) (hcont : Continuous F) :
    Filter.Tendsto
      (fun s => pipelineSS (fun x m sg => F ((x - m) / sg)) (pow10 0) (pow10 s)
        2650 4e-6 false)
      (nhdsWithin 0 (Set.Ioi 0))
      (nhds (pipelineSS (fun x m sg => F ((x - m) / sg)) (pow10 0) 1
        2650 4e-6 false)) := by
  have heq : (fun s => pipelineSS (fun x m sg => F ((x - m) / sg)) (pow10 0)
      (pow10 s) 2650 4e-6 false) =
      fun s => 6 / 2650 * ∑ i in Finset.range 600,
        (if binVal i < 2e-6 then 0
          else freqRawVal (fun x m sg => F ((x - m) / sg)) (pow10 0)
            (pow10 s) false i) / binVal i := by
    funext s
    exact pipelineSS_eq_sum (fun x m sg => F ((x - m) / sg)) (pow10 0)
      (pow10 s) 2650 4e-6 false
  rw [heq, pipelineSS_eq_sum]
  have hpow : Filter.Tendsto (fun s : ℝ => pow10 s)
      (nhdsWithin 0 (Set.Ioi 0)) (nhds 1) := by
    have h0 : Filter.Tendsto pow10 (nhds 0) (nhds (pow10 0)) :=
      pow10_continuous.tendsto 0
    rw [pow10_zero] at h0
    exact h0.mono_left nhdsWithin_le_nhds
  have hF : ∀ c : ℝ, Filter.Tendsto (fun s : ℝ => F ((c - pow10 0) / pow10 s))
      (nhdsWithin 0 (Set.Ioi 0)) (nhds (F ((c - pow10 0) / 1))) := by
    intro c
    have harg : Filter.Tendsto (fun s : ℝ => (c - pow10 0) / pow10 s)
        (nhdsWithin 0 (Set.Ioi 0)) (nhds ((c - pow10 0) / 1)) :=
      Filter.Tendsto.div tendsto_const_nhds hpow one_ne_zero
    exact ((hcont.tendsto _).comp harg :)
  have hterm : ∀ i ∈ Finset.range 600,
      Filter.Tendsto (fun s =>
        (if binVal i < 2e-6 then 0
          else freqRawVal (fun x m sg => F ((x - m) / sg)) (pow10 0)
            (pow10 s) false i) / binVal i)
        (nhdsWithin 0 (Set.Ioi 0))
        (nhds ((if binVal i < 2e-6 then 0
          else freqRawVal (fun x m sg => F ((x - m) / sg)) (pow10 0) 1 false i) /
          binVal i)) := by
    intro i hi
    by_cases hbi : binVal i < 2e-6
    · simp only [if_pos hbi, zero_div]
      exact tendsto_const_nhds
    · simp only [if_neg hbi]
      cases i with
      | zero =>
        have hd : Filter.Tendsto (fun s =>
            freqRawVal (fun x m sg => F ((x - m) / sg)) (pow10 0)
              (pow10 s) false 0)
            (nhdsWithin 0 (Set.Ioi 0))
            (nhds (freqRawVal (fun x m sg => F ((x - m) / sg)) (pow10 0) 1
              false 0)) := by
          simp only [freqRawVal, simVal]
          exact hF _
        exact hd.div_const _
      | succ j =>
        have hd : Filter.Tendsto (fun s =>
            freqRawVal (fun x m sg => F ((x - m) / sg)) (pow10 0)
              (pow10 s) false (j + 1))
            (nhdsWithin 0 (Set.Ioi 0))
            (nhds (freqRawVal (fun x m sg => F ((x - m) / sg)) (pow10 0) 1
              false (j + 1))) := by
          simp only [freqRawVal, simVal]
          exact (hF _).sub (hF _)
        exact hd.div_const _
  have hsum := tendsto_finset_sum (Finset.range 600) hterm
  exact hsum.const_mul (6 / 2650 : ℝ)

/-- The linear-mode result at parameters `(1, 1)` is strictly positive for a
strictly increasing nonnegative cdf shape. -/
lemma false_mode_pos (F : ℝ → ℝ) (hmono : StrictMono F) (hnn : ∀ x, 0 ≤ F x) :
    0 < pipelineSS (fun x m sg => F ((x - m) / sg)) (pow10 0) 1
      2650 4e-6 false := by
  rw [pipelineSS_eq_sum]
  apply mul_pos (by norm_num)
  apply Finset.sum_pos'
  · intro i hi
    apply div_nonneg _ (binVal_pos i).le
    split
    · exact le_refl 0
    · cases i with
      | zero => exact hnn _
      | succ j =>
        show 0 ≤ F ((simVal false (j + 1) - pow10 0) / 1) -
          F ((simVal false j - pow10 0) / 1)
        have harg : (simVal false j - pow10 0) / 1 ≤
            (simVal false (j + 1) - pow10 0) / 1 := by
          simp only [simVal_false, div_one]
          have := pow10_lt_pow10 _ _ (gridLog_lt_succ j)
          linarith
        have := hmono.monotone harg
        linarith
  · refine ⟨599, Finset.mem_range.mpr (by norm_num), ?_⟩
    rw [if_neg (not_lt.mpr binVal599_ge)]
    apply div_pos _ (binVal_pos 599)
    rw [show (599 : ℕ) = 598 + 1 by norm_num]
    show 0 < F ((simVal false (598 + 1) - pow10 0) / 1) -
      F ((simVal false 598 - pow10 0) / 1)
    have harg : (simVal false 598 - pow10 0) / 1 <
        (simVal false (598 + 1) - pow10 0) / 1 := by
      simp only [simVal_false, div_one]
      have := pow10_lt_pow10 _ _ (gridLog_lt_succ 598)
      linarith
    have := hmono harg
    linarith

/-- C6: the two transform modes are not equivalent reparameterizations: for
every location-scale cdf family with a strictly increasing, continuous,
nonnegative shape `F` (the normal CDF is such a family), some `(mean, stdev)`
pair expressed in log10(metres) gives a log-mode specific surface different
from the linear-mode result at the corresponding linear parameters
`(10^mean, 10^stdev)`. -/
theorem C6_modes_not_equivalent (F : ℝ → ℝ) (hmono : StrictMono F)
    (hcont : Continuous F) (hnn : ∀ x, 0 ≤ F x) :
    ∃ gs_mean gs_std : ℝ, 0 < gs_std ∧
      pipelineSS (fun x m sg => F ((x - m) / sg)) gs_mean gs_std
        2650 4e-6 true ≠
      pipelineSS (fun x m sg => F ((x - m) / sg)) (pow10 gs_mean)
        (pow10 gs_std) 2650 4e-6 false := by
  by_contra hcon
  push_neg at hcon
  have hbdd : BddBelow (Set.range F) := by
    refine ⟨0, ?_⟩
    rintro y ⟨x, rfl⟩
    exact hnn x
  have hFbot : Filter.Tendsto F Filter.atBot (nhds (⨅ x, F x)) :=
    tendsto_atBot_ciInf hmono.monotone hbdd
  have hA := tendsto_true_mode_zero F (⨅ x, F x) hFbot
  have hEv : (fun s => pipelineSS (fun x m sg => F ((x - m) / sg)) 0 s
      2650 4e-6 true) =ᶠ[nhdsWithin 0 (Set.Ioi 0)]
      (fun s => pipelineSS (fun x m sg => F ((x - m) / sg)) (pow10 0)
        (pow10 s) 2650 4e-6 false) := by
    apply eventually_nhdsWithin_of_forall
    intro s hs
    exact hcon 0 s hs
  have hGT := hA.congr' hEv
  have hB := tendsto_false_mode F hcont
  have h0W := tendsto_nhds_unique hGT hB
  have hpos := false_mode_pos F hmono hnn
  linarith

/-- Witness for C6: the exponential function is strictly increasing,
continuous and nonnegative. -/
theorem C6_modes_not_equivalent_witness :
    ∃ gs_mean gs_std : ℝ, 0 < gs_std ∧
      pipelineSS (fun x m sg => Real.exp ((x - m) / sg)) gs_mean gs_std
        2650 4e-6 true ≠
      pipelineSS (fun x m sg => Real.exp ((x - m) / sg)) (pow10 gs_mean)
        (pow10 gs_std) 2650 4e-6 false :=
  C6_modes_not_equivalent Real.exp Real.exp_strictMono Real.continuous_exp
    (fun x => (Real.exp_pos x).le)

end

end GsSpec
